import Mathlib

/-!
Verification development for the File-Organizer (Nexus) repository: a shallow
embedding of its filesystem scanner, journaled trash manager, thumbnail cache,
media-URL protocol, App scan effect and SetupScreen retry handler, with
theorems settling the frozen claims about them.
-/

namespace FileOrganizer

/-! ## Scanner data model.
Modelled from the spec: the Tree Scanner (spec section 4.2) and its data model
(section 3) are implemented in electron files (diskVizScanner.ts,
fileScanner.worker.ts) that are not among the repository files available here;
only the README describes them. Entries are immutable snapshots of one
filesystem object; a file entry carries its byte length in sizeBytes, a
directory carries the size its own shallow stat reports (statSize) and its
listed children, and statOk records whether metadata retrieval for the entry
succeeded. -/

inductive EntryKind where
  | file
  | dir
  | symlink
deriving DecidableEq, Repr

/-- Modelled from the spec: one filesystem object as a scan observes it.
statOk false means stat/readdir for this entry failed (EACCES, ENOENT, ...). -/
inductive FSEntry where
  | file (name : String) (sizeBytes : Nat) (statOk : Bool)
  | symlink (name : String) (sizeBytes : Nat) (statOk : Bool)
  | dir (name : String) (statSize : Nat) (statOk : Bool) (children : List FSEntry)

def FSEntry.name : FSEntry → String
  | .file n _ _ => n
  | .symlink n _ _ => n
  | .dir n _ _ _ => n

def FSEntry.statOk : FSEntry → Bool
  | .file _ _ ok => ok
  | .symlink _ _ ok => ok
  | .dir _ _ ok _ => ok

/-- Modelled from the spec: a Tree Node of the scan result, an Entry plus the
children recorded for directory kind. -/
inductive TreeNode where
  | mk (name : String) (kind : EntryKind) (sizeBytes : Nat)
       (children : List TreeNode)

def TreeNode.name : TreeNode → String
  | .mk n _ _ _ => n

def TreeNode.kind : TreeNode → EntryKind
  | .mk _ k _ _ => k

def TreeNode.sizeBytes : TreeNode → Nat
  | .mk _ _ s _ => s

def TreeNode.children : TreeNode → List TreeNode
  | .mk _ _ _ cs => cs

/-- Sum of the sizeBytes of a list of tree nodes (bottom-up aggregation). -/
def sumSizes (ts : List TreeNode) : Nat :=
  (ts.map TreeNode.sizeBytes).sum

mutual
/-- Modelled from the spec: the Tree Scanner (section 4.2). At a directory
whose stat succeeded, list the entries; names from the exclusion set excl are
skipped without being stat-ed; an entry whose metadata retrieval failed is
omitted; a directory entry at depth below maxDepth is expanded and its
sizeBytes set to the sum of the sizeBytes of its children; a directory entry
at the depth limit is included with the size its shallow stat reports and no
expanded children; symlinks are recorded and never followed. An entry whose
own stat failed yields none. -/
def scanEntry (excl : List String) (maxDepth : Nat) :
    FSEntry → Nat → Option TreeNode
  | .file n sz ok, _ => if ok then some (.mk n .file sz []) else none
  | .symlink n sz ok, _ => if ok then some (.mk n .symlink sz []) else none
  | .dir n ssz ok cs, depth =>
    if ok then
      if depth < maxDepth then
        let ts := scanChildren excl maxDepth cs (depth + 1)
        some (.mk n .dir (sumSizes ts) ts)
      else
        some (.mk n .dir ssz [])
    else none

/-- Modelled from the spec: scan the entries of one directory, skipping
excluded names and omitting entries whose metadata retrieval failed. -/
def scanChildren (excl : List String) (maxDepth : Nat) :
    List FSEntry → Nat → List TreeNode
  | [], _ => []
  | c :: cs, depth =>
    if c.name ∈ excl then scanChildren excl maxDepth cs depth
    else
      match scanEntry excl maxDepth c depth with
      | some t => t :: scanChildren excl maxDepth cs depth
      | none => scanChildren excl maxDepth cs depth
end

mutual
/-- All nodes of a result tree paired with their absolute depth, the root
being at depth k. -/
def nodesFrom : TreeNode → Nat → List (TreeNode × Nat)
  | .mk n ki s cs, k => (.mk n ki s cs, k) :: nodesFromList cs (k + 1)

def nodesFromList : List TreeNode → Nat → List (TreeNode × Nat)
  | [], _ => []
  | t :: ts, k => nodesFrom t k ++ nodesFromList ts k
end

mutual
/-- The (name, byte length) pairs of the readable files anywhere inside a
filesystem entry. -/
def fsFiles : FSEntry → List (String × Nat)
  | .file n sz ok => if ok then [(n, sz)] else []
  | .symlink _ _ _ => []
  | .dir _ _ _ cs => fsFilesList cs

def fsFilesList : List FSEntry → List (String × Nat)
  | [] => []
  | c :: cs => fsFiles c ++ fsFilesList cs
end

/-! ## Trash manager and journal.
Modelled from the spec: the Trash Manager and Trash Journal Store
(spec sections 4.4 and 3) live in electron/main.ts, which is not among the
repository files available here; the README (sections 4.3 and 10) describes
the operation order. Files are modelled by their contents at a path; dirOk p
says whether the parent directory of path p exists. -/

inductive TrashError where
  | NotFound
  | RestoreConflict
  | DestinationUnavailable
deriving DecidableEq, Repr

/-- Modelled from the spec: one persisted Trash Item record of the journal. -/
structure TrashItem where
  id : String
  originalPath : String
  storedPath : String
  sizeBytes : Nat
  kind : EntryKind
  deletedAt : Nat
deriving DecidableEq, Repr

/-- The trash storage root from the README: files moved aside live under
this directory, named by uuid plus the original basename. -/
def trashRoot : String := "~/.nexus-trash/files"

/-- The final path component of a slash-separated path: the run of
characters after the last slash (code 47). -/
def baseName (p : String) : String :=
  ⟨p.data.foldl (fun acc c => if c.toNat = 47 then [] else acc ++ [c]) []⟩

/-- Modelled from the spec: the stored path is computed deterministically
from the trash storage root and the id plus the original name. -/
def storedPathFor (id orig : String) : String :=
  trashRoot ++ "/" ++ id ++ "_" ++ baseName orig

/-- Modelled from the spec: the state the trash manager acts on — file
contents by absolute path, parent-directory existence by path, and the
journal (the durable manifest). -/
structure Sys where
  fs : String → Option (List Nat)
  dirOk : String → Bool
  journal : List TrashItem

/-- An fs.rename from src to dst, as a map on path contents. -/
def move (f : String → Option (List Nat)) (src dst : String) :
    String → Option (List Nat) :=
  fun q => if q = dst then f src else if q = src then none else f q

/-- Look a journal entry up by id (restore and purge use only the id). -/
def findItem (j : List TrashItem) (id : String) : Option TrashItem :=
  j.find? (fun e => e.id == id)

/-- Modelled from the spec: soft delete with its two observable steps in the
mandated order — (a) append the Trash Item record to the journal and durably
persist it, giving the intermediate state, then (b) move the item from
originalPath to storedPath, giving the final state. Returns both states and
the created item. -/
def softDeleteSeq (s : Sys) (p id : String) (now : Nat) :
    Except TrashError ((Sys × Sys) × TrashItem) :=
  match s.fs p with
  | none => .error .NotFound
  | some bytes =>
    let it : TrashItem :=
      ⟨id, p, storedPathFor id p, bytes.length, .file, now⟩
    let s1 : Sys := ⟨s.fs, s.dirOk, s.journal ++ [it]⟩
    let s2 : Sys := ⟨move s1.fs p it.storedPath, s1.dirOk, s1.journal⟩
    .ok ((s1, s2), it)

/-- Modelled from the spec: soft delete, final state and created item. -/
def softDelete (s : Sys) (p id : String) (now : Nat) :
    Except TrashError (Sys × TrashItem) :=
  (softDeleteSeq s p id now).map (fun r => (r.1.2, r.2))

/-- Modelled from the spec: restore with its two observable steps — look the
item up by id (NotFound when absent), refuse to overwrite an occupied
originalPath (RestoreConflict), refuse a missing parent directory
(DestinationUnavailable); otherwise move the stored copy back first, then
remove the journal entry only once the file is back. -/
def restoreSeq (s : Sys) (id : String) : Except TrashError (Sys × Sys) :=
  match findItem s.journal id with
  | none => .error .NotFound
  | some it =>
    if (s.fs it.originalPath).isSome then .error .RestoreConflict
    else if s.dirOk it.originalPath = false then
      .error .DestinationUnavailable
    else
      let s1 : Sys := ⟨move s.fs it.storedPath it.originalPath, s.dirOk,
        s.journal⟩
      let s2 : Sys := ⟨s1.fs, s1.dirOk,
        s1.journal.filter (fun e => !(e.id == id))⟩
      .ok (s1, s2)

/-- Modelled from the spec: restore, final state only. -/
def restore (s : Sys) (id : String) : Except TrashError Sys :=
  (restoreSeq s id).map Prod.snd

/-- The system state after attempting a restore: unchanged when the restore
fails. -/
def applyRestore (s : Sys) (id : String) : Sys :=
  match restoreSeq s id with
  | .error _ => s
  | .ok r => r.2

/-- Modelled from the spec: permanent purge — remove the stored copy first,
then the journal entry. Both observable states are returned. -/
def purgeSeq (s : Sys) (id : String) : Except TrashError (Sys × Sys) :=
  match findItem s.journal id with
  | none => .error .NotFound
  | some it =>
    let s1 : Sys := ⟨fun q => if q = it.storedPath then none else s.fs q,
      s.dirOk, s.journal⟩
    let s2 : Sys := ⟨s1.fs, s1.dirOk,
      s1.journal.filter (fun e => !(e.id == id))⟩
    .ok (s1, s2)

/-- The journal covers the trash store: any content present at a computable
stored path is recorded by some journal entry. This is the superset
invariant of spec section 3 (Trash Journal). -/
def StoreCovered (s : Sys) : Prop :=
  ∀ id orig, (s.fs (storedPathFor id orig)).isSome = true →
    ∃ e ∈ s.journal, e.storedPath = storedPathFor id orig

/-! ## Thumbnail cache.
The README (section 5.2) quotes the main-process cache policy verbatim:
if thumbnailCache.size is over 3000 the whole map is cleared, then the new
entry is stored. The cache is modelled by its list of distinct keys; storing
an existing key replaces its value and leaves the key set unchanged. -/

/-- The clear-on-overflow insertion from the README: clear when the size
exceeds 3000, then store the key. -/
def thumbSet (cache : List Nat) (k : Nat) : List Nat :=
  let c := if cache.length > 3000 then [] else cache
  if k ∈ c then c else k :: c

/-! ## Media URL encoding and the media protocol handler.
From the source: toMediaUrl (src/unnamed/part_002) builds
"media://file/" ++ encodeURIComponent(path), and the protocol handler
(src/unnamed/part_001) strips the first occurrence of "media://", applies
decodeURIComponent, and fetches "file://" ++ the decoded text. Strings are
modelled as lists of character codes; encodeURIComponent and
decodeURIComponent are the JavaScript builtins, modelled exactly for ASCII
code points (percent-encoding with uppercase hex digits of every character
outside the unreserved set, and percent-sequence decoding). -/

/-- The character codes of a string literal. -/
def strCodes (s : String) : List Nat := s.data.map Char.toNat

/-- The codes encodeURIComponent leaves unescaped: letters, digits and
- _ . ! ~ * ( ) plus the apostrophe (code 39). -/
def isUnreservedCode (n : Nat) : Bool :=
  (65 ≤ n && n ≤ 90) || (97 ≤ n && n ≤ 122) || (48 ≤ n && n ≤ 57) ||
  n == 45 || n == 95 || n == 46 || n == 33 || n == 126 || n == 42 ||
  n == 39 || n == 40 || n == 41

/-- The code of the uppercase hex digit for a value below 16. -/
def hexDigitCode (n : Nat) : Nat := if n < 10 then 48 + n else 55 + n

/-- The value of a hex digit code (JavaScript decoding accepts both cases). -/
def hexValCode (n : Nat) : Option Nat :=
  if 48 ≤ n ∧ n ≤ 57 then some (n - 48)
  else if 65 ≤ n ∧ n ≤ 70 then some (n - 55)
  else if 97 ≤ n ∧ n ≤ 102 then some (n - 87)
  else none

/-- encodeURIComponent on ASCII code points: an unreserved code passes
through, any other becomes a percent triple (37 is the percent sign). -/
def encCodes : List Nat → List Nat
  | [] => []
  | c :: cs =>
    (if isUnreservedCode c then [c]
     else [37, hexDigitCode (c / 16), hexDigitCode (c % 16)]) ++ encCodes cs

/-- decodeURIComponent on ASCII code points: a percent sign followed by two
hex digits becomes the coded character; anything else passes through. -/
def decCodes : List Nat → List Nat
  | [] => []
  | 37 :: h1 :: h2 :: cs =>
    match hexValCode h1, hexValCode h2 with
    | some a, some b => (16 * a + b) :: decCodes cs
    | _, _ => 37 :: decCodes (h1 :: h2 :: cs)
  | c :: cs => c :: decCodes cs

/-- JavaScript String.replace with a string pattern and empty replacement:
the first occurrence of pat is removed. -/
def dropFirstOcc (pat : List Nat) : List Nat → List Nat
  | [] => []
  | c :: cs =>
    if pat.isPrefixOf (c :: cs) then (c :: cs).drop pat.length
    else c :: dropFirstOcc pat cs

/-- From the source (src/unnamed/part_002): toMediaUrl. -/
def toMediaUrlC (p : List Nat) : List Nat :=
  strCodes "media://file/" ++ encCodes p

/-- From the source (src/unnamed/part_001): the URL the media protocol
handler passes to net.fetch — the request URL with the first "media://"
removed, decoded, behind "file://". -/
def mediaFetchUrlC (url : List Nat) : List Nat :=
  strCodes "file://" ++ decCodes (dropFirstOcc (strCodes "media://") url)

/-! ## The App scan effect.
From the source (App.tsx, staged inside src/src/types/fileScanner.ts): the
effect keyed on [currentPath, activeTab] starts scanDirectoryForViz
(currentPath, 2) at once whenever the dependencies change and currentPath is
nonempty, and additionally scanDirectory(currentPath, 2) when the dashboard
tab is active. The window.electron bridge is taken as available. React runs
the effect after every render whose dependency pair differs from the
previous one; renders are timestamped in milliseconds. -/

inductive Tab where
  | explorer
  | dashboard
deriving DecidableEq, Repr

structure AppDeps where
  currentPath : String
  activeTab : Tab
deriving DecidableEq, Repr

inductive ScanCall where
  | viz (path : String) (depth : Nat)
  | flat (path : String) (depth : Nat)
deriving DecidableEq, Repr

/-- The scan calls one run of the App effect starts, immediately. -/
def effectScans (s : AppDeps) : List ScanCall :=
  if s.currentPath = "" then []
  else
    .viz s.currentPath 2 ::
      (if s.activeTab = Tab.dashboard then [.flat s.currentPath 2] else [])

/-- The timestamped scan calls a sequence of timestamped renders starts:
the effect runs exactly when the dependency pair changed. -/
def appScanRuns (prev : Option AppDeps) :
    List (Nat × AppDeps) → List (Nat × ScanCall)
  | [] => []
  | (t, s) :: rest =>
    (if prev = some s then [] else (effectScans s).map (fun c => (t, c))) ++
      appScanRuns (some s) rest

/-! ## The SetupScreen retry handler.
From the source (SetupScreen.tsx in src/unnamed/part_001): handleRetryAccess
returns when the bridge lacks getSystemPaths or checkAccess; otherwise it
clears the status message, asks checkAccess for the system home path, calls
onGranted with exactly that path when access is granted, and otherwise only
sets a status message. A rejected promise is modelled by access = none; the
loading flag is reset by the finally block on every path that reaches it. -/

structure RetryEnv where
  apiAvailable : Bool
  home : String
  access : Option Bool

structure RetryOutcome where
  granted : Option String
  status : String
deriving DecidableEq, Repr

/-- The status message the handler shows when access is still denied. -/
def denyMsg : String :=
  "Access still not granted. Please enable Full Disk Access and try again."

/-- The observable outcome of one run of handleRetryAccess: the argument
onGranted was invoked with (none when it was not invoked), and the final
status message, given the message shown before the run. -/
def handleRetryAccess (env : RetryEnv) (prevStatus : String) : RetryOutcome :=
  if env.apiAvailable = false then ⟨none, prevStatus⟩
  else
    match env.access with
    | some true => ⟨some env.home, ""⟩
    | some false => ⟨none, denyMsg⟩
    | none => ⟨none, ""⟩

/-! ## Concrete fixtures used by witnesses and counterexamples. -/

/-- A one-file filesystem: the path /a holds the byte 7. -/
def wfs : String → Option (List Nat) :=
  fun q => if q = "/a" then some [7] else none

/-- A state with the one file /a, every parent directory present and an
empty journal. -/
def wSys : Sys := ⟨wfs, fun _ => true, []⟩

/-- A trash item for the file /a, stored under the trash root. -/
def wItem : TrashItem := ⟨"u1", "/a", storedPathFor "u1" "/a", 1, .file, 0⟩

/-- A state where /a is occupied again while wItem sits in the journal. -/
def wSysTrashed : Sys := ⟨wfs, fun _ => true, [wItem]⟩

/-- A two-level example filesystem: directory A holding file f1 of 100
bytes and directory B holding file f2 of 50 bytes (spec section 8). -/
def wTree : FSEntry :=
  .dir "A" 4096 true [.file "f1" 100 true, .dir "B" 4096 true [.file "f2" 50 true]]

/-- The tree the scan of wTree at maxDepth 2 returns. -/
def wTreeScan : TreeNode :=
  .mk "A" .dir 150
    [.mk "f1" .file 100 [], .mk "B" .dir 50 [.mk "f2" .file 50 []]]

/-- The same tree with an unreadable entry next to f1. -/
def wBad : FSEntry := .file "ghost" 5 false

/-- A filesystem whose scan at maxDepth 1 keeps directory B at the depth
limit: B is reported with its shallow stat size 7 and no children. -/
def wDeep : FSEntry := .dir "A" 0 true [.dir "B" 7 true [.file "f" 3 true]]

/-- The scan of wDeep at maxDepth 1: B is a frontier directory node. -/
def wDeepB : TreeNode := .mk "B" .dir 7 []

/-- The root node of the scan of wDeep at maxDepth 1. -/
def wDeepA : TreeNode := .mk "A" .dir 7 [wDeepB]


/-! ## Helper lemmas. -/

theorem thumbSet_range (n : Nat) (hn : n ≤ 3001) :
    (List.range n).foldl thumbSet [] = (List.range n).reverse := by
  induction n with
  | zero => simp
  | succ m ih =>
    rw [List.range_succ, List.foldl_append, ih (by omega)]
    simp only [List.foldl_cons, List.foldl_nil]
    rw [List.reverse_append]
    unfold thumbSet
    have h2 : m ∉ (List.range m).reverse := by simp
    simp [h2]
    omega

theorem findItem_eq_none (j : List TrashItem) (id : String)
    (h : ∀ e ∈ j, e.id ≠ id) : findItem j id = none := by
  unfold findItem
  rw [List.find?_eq_none]
  intro e he
  simp [h e he]

theorem findItem_append_last (j : List TrashItem) (it : TrashItem)
    (id : String) (h : ∀ e ∈ j, e.id ≠ id) (hit : it.id = id) :
    findItem (j ++ [it]) id = some it := by
  unfold findItem
  induction j with
  | nil => simp [List.find?, hit]
  | cons a l ih =>
    have ha : (a.id == id) = false := by
      simp [h a (List.mem_cons_self a l)]
    simp only [List.cons_append, List.find?_cons, ha]
    exact ih (fun e he => h e (List.mem_cons_of_mem a he))

theorem filter_id_append (j : List TrashItem) (it : TrashItem) (id : String)
    (h : ∀ e ∈ j, e.id ≠ id) (hit : it.id = id) :
    (j ++ [it]).filter (fun e => !(e.id == id)) = j := by
  rw [List.filter_append]
  have h1 : j.filter (fun e => !(e.id == id)) = j := by
    apply List.filter_eq_self.mpr
    intro e he
    simp [h e he]
  have h2 : [it].filter (fun e => !(e.id == id)) = [] := by
    simp [List.filter, hit]
  rw [h1, h2, List.append_nil]

theorem move_roundtrip (f : String → Option (List Nat)) (p sp : String)
    (hsp : f sp = none) :
    move (move f p sp) sp p = f := by
  funext q
  unfold move
  by_cases hq : q = p
  · rw [if_pos hq, if_pos rfl, hq]
  · by_cases hq2 : q = sp
    · rw [if_neg hq, if_pos hq2, hq2, hsp]
    · rw [if_neg hq, if_neg hq2, if_neg hq2, if_neg hq]

theorem storedPathFor_length (i o : String) :
    22 ≤ (storedPathFor i o).length := by
  unfold storedPathFor
  simp only [String.length_append]
  have h1 : trashRoot.length = 20 := by decide
  have h2 : ("/").length = 1 := by decide
  have h3 : ("_").length = 1 := by decide
  omega

mutual
theorem scanEntry_depth_aux (excl : List String) (d : Nat) (e : FSEntry)
    (k : Nat) (hk : k ≤ d) (t : TreeNode)
    (ht : scanEntry excl d e k = some t) :
    ∀ q ∈ nodesFrom t k, q.2 ≤ d ∧ (q.2 = d → q.1.children = []) := by
  cases e with
  | file n sz ok =>
    cases ok with
    | false => simp [scanEntry] at ht
    | true =>
      simp only [scanEntry, if_pos] at ht
      cases ht
      intro q hq
      simp only [nodesFrom, nodesFromList, List.mem_singleton] at hq
      subst hq
      exact ⟨hk, fun _ => rfl⟩
  | symlink n sz ok =>
    cases ok with
    | false => simp [scanEntry] at ht
    | true =>
      simp only [scanEntry, if_pos] at ht
      cases ht
      intro q hq
      simp only [nodesFrom, nodesFromList, List.mem_singleton] at hq
      subst hq
      exact ⟨hk, fun _ => rfl⟩
  | dir n ssz ok cs =>
    cases ok with
    | false => simp [scanEntry] at ht
    | true =>
      by_cases hlt : k < d
      · simp only [scanEntry, if_pos, if_pos hlt] at ht
        cases ht
        intro q hq
        simp only [nodesFrom] at hq
        rcases List.mem_cons.mp hq with h | h
        · subst h
          refine ⟨hk, fun hkd => ?_⟩
          have hkd2 : k = d := hkd
          omega
        · exact scanChildren_depth_aux excl d cs (k + 1) hlt q h
      · simp only [scanEntry, if_pos, if_neg hlt] at ht
        cases ht
        intro q hq
        simp only [nodesFrom, nodesFromList, List.mem_singleton] at hq
        subst hq
        exact ⟨hk, fun _ => rfl⟩

theorem scanChildren_depth_aux (excl : List String) (d : Nat)
    (cs : List FSEntry) (k : Nat) (hk : k ≤ d) :
    ∀ q ∈ nodesFromList (scanChildren excl d cs k) k,
      q.2 ≤ d ∧ (q.2 = d → q.1.children = []) := by
  cases cs with
  | nil =>
    intro q hq
    simp [scanChildren, nodesFromList] at hq
  | cons c cs =>
    by_cases hex : c.name ∈ excl
    · intro q hq
      rw [scanChildren, if_pos hex] at hq
      exact scanChildren_depth_aux excl d cs k hk q hq
    · cases hsc : scanEntry excl d c k with
      | none =>
        intro q hq
        rw [scanChildren, if_neg hex, hsc] at hq
        exact scanChildren_depth_aux excl d cs k hk q hq
      | some t0 =>
        intro q hq
        rw [scanChildren, if_neg hex, hsc] at hq
        simp only [nodesFromList] at hq
        rcases List.mem_append.mp hq with h | h
        · exact scanEntry_depth_aux excl d c k hk t0 hsc q h
        · exact scanChildren_depth_aux excl d cs k hk q h
end

mutual
theorem scanEntry_size_aux (excl : List String) (d : Nat) (e : FSEntry)
    (k : Nat) (hk : k ≤ d) (t : TreeNode)
    (ht : scanEntry excl d e k = some t) :
    ∀ q ∈ nodesFrom t k,
      (q.1.kind = .dir → q.1.sizeBytes = sumSizes q.1.children ∨
        (q.2 = d ∧ q.1.children = [])) ∧
      (q.1.kind = .file → (q.1.name, q.1.sizeBytes) ∈ fsFiles e) := by
  cases e with
  | file n sz ok =>
    cases ok with
    | false => simp [scanEntry] at ht
    | true =>
      simp only [scanEntry, if_pos] at ht
      cases ht
      intro q hq
      simp only [nodesFrom, nodesFromList, List.mem_singleton] at hq
      subst hq
      refine ⟨(fun h => nomatch h), fun _ => ?_⟩
      simp [fsFiles, TreeNode.name, TreeNode.sizeBytes]
  | symlink n sz ok =>
    cases ok with
    | false => simp [scanEntry] at ht
    | true =>
      simp only [scanEntry, if_pos] at ht
      cases ht
      intro q hq
      simp only [nodesFrom, nodesFromList, List.mem_singleton] at hq
      subst hq
      exact ⟨(fun h => nomatch h), (fun h => nomatch h)⟩
  | dir n ssz ok cs =>
    cases ok with
    | false => simp [scanEntry] at ht
    | true =>
      by_cases hlt : k < d
      · simp only [scanEntry, if_pos, if_pos hlt] at ht
        cases ht
        intro q hq
        simp only [nodesFrom] at hq
        rcases List.mem_cons.mp hq with h | h
        · subst h
          exact ⟨fun _ => Or.inl rfl, (fun h => nomatch h)⟩
        · have h2 := scanChildren_size_aux excl d cs (k + 1) hlt q h
          refine ⟨h2.1, fun hf => ?_⟩
          have h3 := h2.2 hf
          simpa [fsFiles] using h3
      · simp only [scanEntry, if_pos, if_neg hlt] at ht
        cases ht
        intro q hq
        simp only [nodesFrom, nodesFromList, List.mem_singleton] at hq
        subst hq
        refine ⟨fun _ => Or.inr ⟨?_, rfl⟩, (fun h => nomatch h)⟩
        show k = d
        omega

theorem scanChildren_size_aux (excl : List String) (d : Nat)
    (cs : List FSEntry) (k : Nat) (hk : k ≤ d) :
    ∀ q ∈ nodesFromList (scanChildren excl d cs k) k,
      (q.1.kind = .dir → q.1.sizeBytes = sumSizes q.1.children ∨
        (q.2 = d ∧ q.1.children = [])) ∧
      (q.1.kind = .file → (q.1.name, q.1.sizeBytes) ∈ fsFilesList cs) := by
  cases cs with
  | nil =>
    intro q hq
    simp [scanChildren, nodesFromList] at hq
  | cons c cs =>
    by_cases hex : c.name ∈ excl
    · intro q hq
      rw [scanChildren, if_pos hex] at hq
      have h2 := scanChildren_size_aux excl d cs k hk q hq
      refine ⟨h2.1, fun hf => ?_⟩
      simp only [fsFilesList]
      exact List.mem_append_right _ (h2.2 hf)
    · cases hsc : scanEntry excl d c k with
      | none =>
        intro q hq
        rw [scanChildren, if_neg hex, hsc] at hq
        have h2 := scanChildren_size_aux excl d cs k hk q hq
        refine ⟨h2.1, fun hf => ?_⟩
        simp only [fsFilesList]
        exact List.mem_append_right _ (h2.2 hf)
      | some t0 =>
        intro q hq
        rw [scanChildren, if_neg hex, hsc] at hq
        simp only [nodesFromList] at hq
        rcases List.mem_append.mp hq with h | h
        · have h2 := scanEntry_size_aux excl d c k hk t0 hsc q h
          refine ⟨h2.1, fun hf => ?_⟩
          simp only [fsFilesList]
          exact List.mem_append_left _ (h2.2 hf)
        · have h2 := scanChildren_size_aux excl d cs k hk q h
          refine ⟨h2.1, fun hf => ?_⟩
          simp only [fsFilesList]
          exact List.mem_append_right _ (h2.2 hf)
end

theorem scanEntry_statOk_false (excl : List String) (d : Nat) (e : FSEntry)
    (k : Nat) (h : e.statOk = false) : scanEntry excl d e k = none := by
  cases e with
  | file n sz ok => cases ok with
    | false => simp [scanEntry]
    | true => simp [FSEntry.statOk] at h
  | symlink n sz ok => cases ok with
    | false => simp [scanEntry]
    | true => simp [FSEntry.statOk] at h
  | dir n ssz ok cs => cases ok with
    | false => simp [scanEntry]
    | true => simp [FSEntry.statOk] at h

theorem scanChildren_omit (excl : List String) (d : Nat) (bad : FSEntry)
    (hb : bad.statOk = false) (ys : List FSEntry) :
    ∀ (xs : List FSEntry) (k : Nat),
      scanChildren excl d (xs ++ bad :: ys) k =
        scanChildren excl d (xs ++ ys) k := by
  intro xs
  induction xs with
  | nil =>
    intro k
    simp only [List.nil_append]
    by_cases hex : bad.name ∈ excl
    · rw [scanChildren, if_pos hex]
    · rw [scanChildren, if_neg hex, scanEntry_statOk_false excl d bad k hb]
  | cons x xs ih =>
    intro k
    simp only [List.cons_append]
    by_cases hex : x.name ∈ excl
    · rw [scanChildren, if_pos hex, scanChildren, if_pos hex, ih k]
    · rw [scanChildren, if_neg hex, scanChildren, if_neg hex]
      cases hsc : scanEntry excl d x k with
      | none => simp only [ih k]
      | some t0 => simp only [ih k]

theorem scanChildren_includes (excl : List String) (d : Nat)
    (cs : List FSEntry) (c : FSEntry) (k : Nat) (hc : c ∈ cs)
    (hex : c.name ∉ excl) (t : TreeNode)
    (ht : scanEntry excl d c k = some t) :
    t ∈ scanChildren excl d cs k := by
  induction cs with
  | nil => cases hc
  | cons a l ih =>
    rcases List.mem_cons.mp hc with h | h
    · subst h
      rw [scanChildren, if_neg hex, ht]
      exact List.mem_cons_self _ _
    · by_cases ha : a.name ∈ excl
      · rw [scanChildren, if_pos ha]
        exact ih h
      · rw [scanChildren, if_neg ha]
        cases hsc : scanEntry excl d a k with
        | none => exact ih h
        | some t0 => exact List.mem_cons_of_mem _ (ih h)

theorem decCodes_cons_ne (c : Nat) (cs : List Nat) (hc : c ≠ 37) :
    decCodes (c :: cs) = c :: decCodes cs := by
  rw [decCodes.eq_def]
  split
  · rename_i h
    cases h
  · rename_i h1 h2 cs2 heq
    injection heq with e1 e2
    exact absurd e1 hc
  · rename_i h
    injection h with e1 e2
    rw [e1, e2]

theorem hexVal_hexDigit : ∀ m, m < 16 →
    hexValCode (hexDigitCode m) = some m := by
  decide

theorem unreserved_ne_37 (c : Nat) (h : isUnreservedCode c = true) :
    c ≠ 37 := by
  intro hc
  rw [hc] at h
  exact absurd h (by decide)

theorem decCodes_append_no37 (l r : List Nat) (h : ∀ c ∈ l, c ≠ 37) :
    decCodes (l ++ r) = l ++ decCodes r := by
  induction l with
  | nil => rfl
  | cons c cs ih =>
    rw [List.cons_append, decCodes_cons_ne c _ (h c (List.mem_cons_self c cs)),
      ih (fun x hx => h x (List.mem_cons_of_mem c hx))]
    rfl

theorem decCodes_encCodes (p : List Nat) (h : ∀ c ∈ p, c < 128) :
    decCodes (encCodes p) = p := by
  induction p with
  | nil => rfl
  | cons c cs ih =>
    have hc : c < 128 := h c (List.mem_cons_self c cs)
    have ihr := ih (fun x hx => h x (List.mem_cons_of_mem c hx))
    by_cases hu : isUnreservedCode c = true
    · rw [encCodes, if_pos hu, List.singleton_append,
        decCodes_cons_ne c _ (unreserved_ne_37 c hu), ihr]
    · rw [encCodes, if_neg hu]
      have hdiv : c / 16 < 16 :=
        lt_of_le_of_lt (Nat.div_le_div_right (show c ≤ 127 by omega))
          (by decide)
      have hd1 : hexValCode (hexDigitCode (c / 16)) = some (c / 16) :=
        hexVal_hexDigit _ hdiv
      have hd2 : hexValCode (hexDigitCode (c % 16)) = some (c % 16) :=
        hexVal_hexDigit _ (Nat.mod_lt _ (by omega))
      show decCodes (37 :: hexDigitCode (c / 16) :: hexDigitCode (c % 16) ::
        encCodes cs) = c :: cs
      rw [decCodes, hd1, hd2]
      rw [ihr]
      show (16 * (c / 16) + c % 16) :: cs = c :: cs
      rw [Nat.div_add_mod c 16]

theorem dropFirstOcc_append (pat r : List Nat) (hp : pat ≠ []) :
    dropFirstOcc pat (pat ++ r) = r := by
  cases pat with
  | nil => exact absurd rfl hp
  | cons a l =>
    show dropFirstOcc (a :: l) (a :: (l ++ r)) = r
    rw [dropFirstOcc]
    have hpre : (a :: l).isPrefixOf (a :: (l ++ r)) = true := by
      rw [List.isPrefixOf_iff_prefix]
      exact List.prefix_append _ _
    rw [if_pos hpre]
    exact List.drop_left (a :: l) r

/-- For every ASCII path the handler keeps a leading file-slash segment: it
fetches "file://file/" ++ p, not "file://" ++ p. -/
theorem media_handler_general (p : List Nat) (h : ∀ c ∈ p, c < 128) :
    mediaFetchUrlC (toMediaUrlC p) = strCodes "file://file/" ++ p := by
  unfold mediaFetchUrlC toMediaUrlC
  have h1 : strCodes "media://file/" =
      strCodes "media://" ++ strCodes "file/" := by decide
  rw [h1, List.append_assoc,
    dropFirstOcc_append (strCodes "media://") _ (by decide),
    decCodes_append_no37 _ _ (by decide), decCodes_encCodes p h]
  have h3 : strCodes "file://file/" =
      strCodes "file://" ++ strCodes "file/" := by decide
  rw [h3, List.append_assoc]


/-! ## The claims. -/

/-- Claim C1 (amended): in every tree returned by the scanner, every
directory node either has sizeBytes equal to the sum of the sizeBytes of its
direct children, or sits at exactly the depth limit with no expanded
children (reporting its shallow-stat size); and every file node carries the
(name, byte length) of a readable file observed in that scan. -/
theorem c1_size_aggregation (excl : List String) (d : Nat) (e : FSEntry)
    (t : TreeNode) (ht : scanEntry excl d e 0 = some t) :
    ∀ q ∈ nodesFrom t 0,
      (q.1.kind = .dir → q.1.sizeBytes = sumSizes q.1.children ∨
        (q.2 = d ∧ q.1.children = [])) ∧
      (q.1.kind = .file → (q.1.name, q.1.sizeBytes) ∈ fsFiles e) :=
  scanEntry_size_aux excl d e 0 (Nat.zero_le d) t ht

/-- Claim C1 counterexample: scanning wDeep at maxDepth 1 returns a tree
whose directory node B (at the depth limit) has sizeBytes 7, the sum of its
children being 0 — so not every directory node satisfies the sum equation. -/
theorem c1_counterexample :
    scanEntry [] 1 wDeep 0 = some wDeepA ∧
    wDeepB.kind = EntryKind.dir ∧
    (wDeepB, 1) ∈ nodesFrom wDeepA 0 ∧
    wDeepB.sizeBytes ≠ sumSizes wDeepB.children :=
  ⟨rfl, rfl, List.mem_cons_of_mem _ (List.mem_cons_self _ _), by decide⟩

/-- Claim C1 witness: the amended claim applied to the two-level example
tree of spec section 8 at its root node, whose sizeBytes 150 is the sum
100 + 50 of its children. -/
theorem c1_witness :
    (wTreeScan.kind = .dir →
      wTreeScan.sizeBytes = sumSizes wTreeScan.children ∨
        ((0 : Nat) = 2 ∧ wTreeScan.children = [])) ∧
    (wTreeScan.kind = .file →
      (wTreeScan.name, wTreeScan.sizeBytes) ∈ fsFiles wTree) :=
  c1_size_aggregation [] 2 wTree wTreeScan rfl (wTreeScan, 0)
    (List.mem_cons_self _ _)

/-- Claim C2: a successful soft delete appends the Trash Item record to the
journal in its first observable step, while the filesystem is still
untouched, and the journal-covers-the-store superset invariant holds at
every observable state — before, between and after the two steps — so it
also holds after an abrupt termination at any point. -/
theorem c2_softDelete_journal_first (s : Sys) (p id : String) (now : Nat)
    (bs : List Nat) (hp : s.fs p = some bs) (hcov : StoreCovered s) :
    ∃ s1 s2 it, softDeleteSeq s p id now = .ok ((s1, s2), it) ∧
      s1.journal = s.journal ++ [it] ∧ s1.fs = s.fs ∧
      StoreCovered s1 ∧ StoreCovered s2 := by
  refine ⟨⟨s.fs, s.dirOk,
      s.journal ++ [⟨id, p, storedPathFor id p, bs.length, .file, now⟩]⟩,
    ⟨move s.fs p (storedPathFor id p), s.dirOk,
      s.journal ++ [⟨id, p, storedPathFor id p, bs.length, .file, now⟩]⟩,
    ⟨id, p, storedPathFor id p, bs.length, .file, now⟩, ?_, rfl, rfl, ?_, ?_⟩
  · unfold softDeleteSeq
    rw [hp]
  · intro i2 o2 h
    obtain ⟨e, he, hsp⟩ := hcov i2 o2 h
    exact ⟨e, List.mem_append_left _ he, hsp⟩
  · intro i2 o2 h
    have h2 : (if storedPathFor i2 o2 = storedPathFor id p then s.fs p
        else if storedPathFor i2 o2 = p then none
        else s.fs (storedPathFor i2 o2)).isSome = true := h
    by_cases hP : storedPathFor i2 o2 = storedPathFor id p
    · refine ⟨⟨id, p, storedPathFor id p, bs.length, .file, now⟩,
        List.mem_append_right _ (List.mem_singleton.mpr rfl), hP.symm⟩
    · rw [if_neg hP] at h2
      by_cases hP2 : storedPathFor i2 o2 = p
      · rw [if_pos hP2] at h2
        simp at h2
      · rw [if_neg hP2] at h2
        obtain ⟨e, he, hsp⟩ := hcov i2 o2 h2
        exact ⟨e, List.mem_append_left _ he, hsp⟩

/-- Claim C2 witness: the ordering and the superset invariant at the
concrete one-file state wSys, soft deleting /a. -/
theorem c2_witness :
    ∃ s1 s2 it, softDeleteSeq wSys "/a" "u1" 0 = .ok ((s1, s2), it) ∧
      s1.journal = wSys.journal ++ [it] ∧ s1.fs = wSys.fs ∧
      StoreCovered s1 ∧ StoreCovered s2 := by
  have hcov : StoreCovered wSys := by
    intro i o hh
    exfalso
    have hne : storedPathFor i o ≠ "/a" := by
      intro he
      have hl := storedPathFor_length i o
      rw [he] at hl
      have : ("/a").length = 2 := by decide
      omega
    have hz : wSys.fs (storedPathFor i o) = none := by
      show wfs (storedPathFor i o) = none
      unfold wfs
      rw [if_neg hne]
    rw [hz] at hh
    simp at hh
  exact c2_softDelete_journal_first wSys "/a" "u1" 0 [7] (by decide) hcov

/-- Claim C3: the App effect as written starts a scan immediately on every
dependency change — two renders 10 ms apart with the same path produce two
scanDirectoryForViz executions of the same (path, mode) key inside any
80 ms window, with no quiet-window wait, contradicting the documented
debounce. -/
theorem c3_no_debounce :
    appScanRuns none [(0, ⟨"/a", Tab.explorer⟩), (10, ⟨"/a", Tab.dashboard⟩)] =
      [(0, .viz "/a" 2), (10, .viz "/a" 2), (10, .flat "/a" 2)] ∧
    ((appScanRuns none
        [(0, ⟨"/a", Tab.explorer⟩), (10, ⟨"/a", Tab.dashboard⟩)]).countP
      (fun r => r.2 == ScanCall.viz "/a" 2)) = 2 :=
  ⟨by decide, by decide⟩


/-- Claim C4: soft deleting a file and restoring the returned id is an
identity on the filesystem — the contents at every path, the original path
included, are exactly as before, and no journal entry for that id remains. -/
theorem c4_softDelete_restore_roundtrip (s : Sys) (p id : String) (now : Nat)
    (bs : List Nat) (hp : s.fs p = some bs)
    (hsp : s.fs (storedPathFor id p) = none)
    (hid : ∀ e ∈ s.journal, e.id ≠ id)
    (hdir : s.dirOk p = true) :
    ∃ s2 it, softDelete s p id now = .ok (s2, it) ∧
      restore s2 it.id = .ok s ∧ findItem s.journal id = none := by
  have hne : p ≠ storedPathFor id p := by
    intro h
    rw [h, hsp] at hp
    cases hp
  refine ⟨⟨move s.fs p (storedPathFor id p), s.dirOk,
      s.journal ++ [⟨id, p, storedPathFor id p, bs.length, .file, now⟩]⟩,
    ⟨id, p, storedPathFor id p, bs.length, .file, now⟩, ?_, ?_, ?_⟩
  · unfold softDelete softDeleteSeq
    rw [hp]
    rfl
  · unfold restore restoreSeq
    rw [findItem_append_last s.journal _ id hid rfl]
    have hconf : (move s.fs p (storedPathFor id p) p) = none := by
      unfold move
      simp [hne]
    simp only [hconf, Option.isSome_none]
    rw [if_neg (by simp), if_neg (by simp [hdir])]
    simp only [Except.map]
    rw [move_roundtrip s.fs p (storedPathFor id p) hsp]
    rw [filter_id_append s.journal _ id hid rfl]
  · exact findItem_eq_none s.journal id hid

/-- Claim C4 witness: the roundtrip at the concrete one-file state wSys
with the file /a and the fresh id u1. -/
theorem c4_witness :
    ∃ s2 it, softDelete wSys "/a" "u1" 0 = .ok (s2, it) ∧
      restore s2 it.id = .ok wSys ∧ findItem wSys.journal "u1" = none :=
  c4_softDelete_restore_roundtrip wSys "/a" "u1" 0 [7] (by decide) (by decide)
    (fun e he => nomatch he) rfl

/-- Claim C5: restore of an id with no journal entry fails with NotFound;
restore of a trashed item whose originalPath is occupied fails with
RestoreConflict and changes nothing — the state, so the stored copy and the
journal entry, are left exactly as they were. -/
theorem c5_restore_error_cases (s : Sys) (id : String) :
    (findItem s.journal id = none → restore s id = .error .NotFound) ∧
    (∀ it, findItem s.journal id = some it →
      (s.fs it.originalPath).isSome = true →
      restore s id = .error .RestoreConflict ∧ applyRestore s id = s) := by
  constructor
  · intro h
    unfold restore restoreSeq
    rw [h]
    rfl
  · intro it hit hocc
    constructor
    · unfold restore restoreSeq
      rw [hit]
      simp [hocc, Except.map]
    · unfold applyRestore restoreSeq
      rw [hit]
      simp [hocc]

/-- Claim C5 witness: at the concrete state wSysTrashed (item u1 in the
journal, /a occupied) restore of the unknown id zz fails with NotFound and
restore of u1 fails with RestoreConflict leaving the state unchanged. -/
theorem c5_witness :
    restore wSysTrashed "zz" = .error TrashError.NotFound ∧
    restore wSysTrashed "u1" = .error TrashError.RestoreConflict ∧
    applyRestore wSysTrashed "u1" = wSysTrashed :=
  ⟨(c5_restore_error_cases wSysTrashed "zz").1 (by decide),
    ((c5_restore_error_cases wSysTrashed "u1").2 wItem rfl rfl).1,
    ((c5_restore_error_cases wSysTrashed "u1").2 wItem rfl rfl).2⟩

/-- Claim C6: an entry whose metadata retrieval failed is omitted from the
directory listing — the scan result equals the scan of the same directory
without that entry — and the enclosing directory scan still returns a
result; a per-entry failure never fails the whole scan. -/
theorem c6_scan_omits_unreadable (excl : List String) (d : Nat)
    (xs ys : List FSEntry) (bad : FSEntry) (k : Nat) (n : String)
    (ssz : Nat) (hb : bad.statOk = false) :
    scanChildren excl d (xs ++ bad :: ys) k =
      scanChildren excl d (xs ++ ys) k ∧
    scanEntry excl d (.dir n ssz true (xs ++ bad :: ys)) k =
      scanEntry excl d (.dir n ssz true (xs ++ ys)) k ∧
    (scanEntry excl d (.dir n ssz true (xs ++ bad :: ys)) k).isSome = true := by
  refine ⟨scanChildren_omit excl d bad hb ys xs k, ?_, ?_⟩
  · by_cases hlt : k < d <;>
      simp [scanEntry, hlt, scanChildren_omit excl d bad hb ys xs (k + 1)]
  · by_cases hlt : k < d <;> simp [scanEntry, hlt]

/-- Claim C6 witness: the unreadable entry wBad next to the readable file
f1 is dropped and the enclosing scan still succeeds. -/
theorem c6_witness :
    scanChildren [] 1 ([FSEntry.file "f1" 100 true] ++ wBad :: []) 0 =
      scanChildren [] 1 ([FSEntry.file "f1" 100 true] ++ []) 0 ∧
    scanEntry [] 1
        (.dir "A" 0 true ([FSEntry.file "f1" 100 true] ++ wBad :: [])) 0 =
      scanEntry [] 1 (.dir "A" 0 true ([FSEntry.file "f1" 100 true] ++ [])) 0 ∧
    (scanEntry [] 1
        (.dir "A" 0 true ([FSEntry.file "f1" 100 true] ++ wBad :: [])) 0).isSome
      = true :=
  c6_scan_omits_unreadable [] 1 [FSEntry.file "f1" 100 true] [] wBad 0 "A" 0 rfl

/-- Claim C7: in every tree returned by a scan with limit d, every node sits
at depth at most d and any node at exactly depth d has no expanded children;
a readable directory reached at exactly depth d is still included,
unexpanded, with its shallow-stat size, and any readable non-excluded entry
of a scanned directory whose own scan succeeds appears among its children. -/
theorem c7_depth_bound (excl : List String) (d : Nat) (e : FSEntry)
    (t : TreeNode) (ht : scanEntry excl d e 0 = some t) :
    (∀ q ∈ nodesFrom t 0, q.2 ≤ d ∧ (q.2 = d → q.1.children = [])) ∧
    (∀ (n : String) (ssz : Nat) (cs : List FSEntry),
      scanEntry excl d (.dir n ssz true cs) d = some (.mk n .dir ssz [])) ∧
    (∀ (cs : List FSEntry) (c : FSEntry) (k : Nat) (t0 : TreeNode),
      c ∈ cs → c.name ∉ excl → scanEntry excl d c k = some t0 →
        t0 ∈ scanChildren excl d cs k) :=
  ⟨scanEntry_depth_aux excl d e 0 (Nat.zero_le d) t ht,
    fun n ssz cs => by simp [scanEntry],
    fun cs c k t0 hc hex h => scanChildren_includes excl d cs c k hc hex t0 h⟩

/-- Claim C7 witness: scanning wDeep at maxDepth 1 puts directory B at
exactly depth 1 with no expanded children. -/
theorem c7_witness :
    (wDeepB, 1).2 ≤ 1 ∧ ((wDeepB, 1).2 = 1 → (wDeepB, 1).1.children = []) :=
  (c7_depth_bound [] 1 wDeep wDeepA rfl).1 (wDeepB, 1)
    (List.mem_cons_of_mem _ (List.mem_cons_self _ _))

/-- Claim C8 (amended): the thumbnail cache is bounded at 3001 entries, not
3000 — one insertion into a cache holding 3000 keys proceeds without
clearing and yields 3001 — and whenever the size exceeds 3000 the whole
cache is cleared before the new entry is stored, so the size after any
insertion is at most 3001 and never grows without bound. -/
theorem c8_thumb_bound (c : List Nat) (k : Nat) :
    (thumbSet c k).length ≤ 3001 ∧ (c.length > 3000 → thumbSet c k = [k]) := by
  constructor
  · unfold thumbSet
    by_cases h : c.length > 3000
    · simp [h]
    · simp only [if_neg h]
      by_cases hk : k ∈ c <;> simp [hk] <;> omega
  · intro h
    unfold thumbSet
    simp [h]

/-- Claim C8 counterexample: inserting the 3001 distinct keys 0..3000 into
the empty cache never triggers the clear and leaves 3001 entries, so the
cache is not bounded at 3000. -/
theorem c8_counterexample :
    3000 < ((List.range 3001).foldl thumbSet []).length := by
  rw [thumbSet_range 3001 (le_refl _)]
  simp

/-- Claim C9: the media protocol handler applied to toMediaUrl of the path
/a fetches file://file//a — the file-slash segment of toMediaUrl is not
stripped — and this differs from file:///a, so the handler is not a left
inverse of the toMediaUrl encoding. -/
theorem c9_media_mismatch :
    mediaFetchUrlC (toMediaUrlC (strCodes "/a")) = strCodes "file://file//a" ∧
    strCodes "file://file//a" ≠ strCodes "file:///a" :=
  ⟨by decide, by decide⟩

/-- Claim C10: one run of handleRetryAccess invokes onGranted exactly when
the bridge is available and checkAccess on the system home path resolves
true, and then with exactly that home path; when access is still denied it
only sets the status message and invokes no navigation callback. -/
theorem c10_retry_access (env : RetryEnv) (prev : String) :
    ((handleRetryAccess env prev).granted.isSome = true ↔
      env.apiAvailable = true ∧ env.access = some true) ∧
    (env.apiAvailable = true → env.access = some true →
      (handleRetryAccess env prev).granted = some env.home) ∧
    (env.apiAvailable = true → env.access = some false →
      (handleRetryAccess env prev).granted = none ∧
      (handleRetryAccess env prev).status = denyMsg) := by
  rcases env with ⟨api, home, access⟩
  cases api
  · cases access with
    | none => simp [handleRetryAccess]
    | some b => cases b <;> simp [handleRetryAccess]
  · cases access with
    | none => simp [handleRetryAccess]
    | some b => cases b <;> simp [handleRetryAccess]

/-- Claim C10 witness: with the bridge available and checkAccess true for
the home path, onGranted is invoked with exactly that path. -/
theorem c10_witness :
    (handleRetryAccess ⟨true, "/home/u", some true⟩ "x").granted =
      some "/home/u" :=
  (c10_retry_access ⟨true, "/home/u", some true⟩ "x").2.1 rfl rfl

end FileOrganizer
